import Mathlib

/-!
Verification of the structural round-trip pipeline of a document translator
service (FastAPI app: `app/main.py`, `app/services/translator.py`,
`app/services/file_utils.py`).

The Python sources are shallowly embedded: Python `str` is modelled as
Lean `String` (a structure over `List Char`; the inputs of interest are
ASCII, for which Python and Lean string semantics agree), and the few
regex patterns of the source are compiled by hand into executable
scanning functions whose backtracking order follows the Python `re`
engine for those fixed patterns.
-/

/-! ## Python string primitives -/

/-- The whitespace class of Python's `str.strip()` and of `\s` in the
source's ASCII regexes: space, tab, newline, carriage return, vertical
tab, form feed. -/
def isPySpace (c : Char) : Bool :=
  c == ' ' || c == '\t' || c == '\n' || c == '\r' || c == '\x0b' || c == '\x0c'

/-- Python `str.strip()` (ASCII whitespace). -/
def pyStrip (l : List Char) : List Char :=
  ((l.dropWhile isPySpace).reverse.dropWhile isPySpace).reverse

/-- `pyStrip` lifted to `String`. -/
def pyStripStr (s : String) : String := ⟨pyStrip s.data⟩

/-- Python `str.lower()` (ASCII letters, which is all the source feeds it). -/
def pyLower (s : String) : String := ⟨s.data.map Char.toLower⟩

/-- Prepend a character to the first piece of a split result (helper for
the `str.split` models below). -/
def consHead (c : Char) : List (List Char) → List (List Char)
  | [] => [[c]]
  | b :: bs => (c :: b) :: bs

/-- Python `text.split("\n\n")`: split on each leftmost non-overlapping
occurrence of the two-character delimiter. -/
def splitBlocks : List Char → List (List Char)
  | [] => [[]]
  | '\n' :: '\n' :: rest => [] :: splitBlocks rest
  | c :: cs => consHead c (splitBlocks cs)

/-- Python `text.split("\n")`. -/
def splitLines : List Char → List (List Char)
  | [] => [[]]
  | '\n' :: rest => [] :: splitLines rest
  | c :: cs => consHead c (splitLines cs)

/-- Python `line.split(" | ")` (space-pipe-space cell delimiter). -/
def splitCells : List Char → List (List Char)
  | [] => [[]]
  | ' ' :: '|' :: ' ' :: rest => [] :: splitCells rest
  | c :: cs => consHead c (splitCells cs)

/-- Python `line.split('|')`. -/
def splitPipe : List Char → List (List Char)
  | [] => [[]]
  | '|' :: rest => [] :: splitPipe rest
  | c :: cs => consHead c (splitPipe cs)

/-- Python `"\n\n".join(blocks)` at the character-list level. -/
def joinBlocks : List (List Char) → List Char
  | [] => []
  | [b] => b
  | b :: c :: bs => b ++ '\n' :: '\n' :: joinBlocks (c :: bs)

/-- Python `"\n\n".join(chunks)` at the `String` level. -/
def joinChunks : List String → String
  | [] => ""
  | [s] => s
  | s :: t :: ss => s ++ "\n\n" ++ joinChunks (t :: ss)

/-! ## Markup codec (`file_utils.strip_markdown`, `_split_bold_segments`)

The source's `_BOLD_RE = re.compile(r"\*\*([^*]+)\*\*")` admits a direct
deterministic reading: a match starts at position `i` iff `s[i] = s[i+1] = '*'`,
the maximal run of non-`*` characters after it is nonempty, and two `*`
follow that run (the greedy `[^*]+` cannot backtrack into a successful
shorter match because the character after a shortened run is a non-star).
`re.sub`/`re.finditer` scan left to right, moving one character forward
after a failed match attempt.  The scan is implemented on fuel (the string
length bounds the number of steps) so that it stays structurally
recursive and kernel-evaluable. -/

/-- One `re.sub(_BOLD_RE, group1, ·)` pass, on fuel.  `stripFuel f l = l`
when the fuel runs out; fuel `≥ l.length` is always enough (each step
consumes at least one character). -/
def stripFuel : Nat → List Char → List Char
  | _, [] => []
  | _, [c] => [c]
  | 0, l => l
  | f + 1, c1 :: c2 :: rest =>
    if c1 = '*' ∧ c2 = '*' then
      if (rest.takeWhile (fun c => c != '*')) ≠ [] ∧
          (rest.dropWhile (fun c => c != '*')).take 2 = ['*', '*'] then
        rest.takeWhile (fun c => c != '*') ++
          stripFuel f ((rest.dropWhile (fun c => c != '*')).drop 2)
      else c1 :: stripFuel f (c2 :: rest)
    else c1 :: stripFuel f (c2 :: rest)

/-- `file_utils.strip_markdown`: remove `**bold**` markers (one regex
substitution pass). -/
def strip_markdown (text : String) : String :=
  ⟨stripFuel text.data.length text.data⟩

/-- The scan of `file_utils._split_bold_segments`, on the same fuel
pattern as `stripFuel`: `acc` holds (reversed) the plain text accumulated
since the last match, flushed as a non-bold segment exactly when nonempty,
mirroring the `if m.start() > last` / `if last < len(text)` guards. -/
def splitBoldFuel : Nat → List Char → List Char → List (List Char × Bool)
  | _, [], acc => if acc.isEmpty then [] else [(acc.reverse, false)]
  | _, [c], acc => [((c :: acc).reverse, false)]
  | 0, l, acc => [(acc.reverse ++ l, false)]
  | f + 1, c1 :: c2 :: rest, acc =>
    if c1 = '*' ∧ c2 = '*' then
      if (rest.takeWhile (fun c => c != '*')) ≠ [] ∧
          (rest.dropWhile (fun c => c != '*')).take 2 = ['*', '*'] then
        (if acc.isEmpty then [] else [(acc.reverse, false)]) ++
          (rest.takeWhile (fun c => c != '*'), true) ::
            splitBoldFuel f ((rest.dropWhile (fun c => c != '*')).drop 2) []
      else splitBoldFuel f (c2 :: rest) (c1 :: acc)
    else splitBoldFuel f (c2 :: rest) (c1 :: acc)

/-- `file_utils._split_bold_segments`: split a string into
`(segment, is_bold)` pairs by `**bold**` markers. -/
def _split_bold_segments (text : String) : List (String × Bool) :=
  (splitBoldFuel text.data.length text.data []).map (fun p => (⟨p.1⟩, p.2))

/-- Concatenation of the text components of a segment list. -/
def concatTexts : List (String × Bool) → String
  | [] => ""
  | p :: ps => p.1 ++ concatTexts ps

-- sanity checks (claim statements tried on concrete inputs)
example : strip_markdown "Hello **world**" = "Hello world" := by decide
example : strip_markdown "****a****" = "**a**" := by decide
example : strip_markdown "**a**" = "a" := by decide
example : _split_bold_segments "x**b**y" = [("x", false), ("b", true), ("y", false)] := by decide

/-! ## Chunker (`translator._chunk_text`) -/

/-- The accumulation loop of `_chunk_text`: greedily pack the remaining
`blocks` into `current` (whose bookkeeping length is `currentLen`,
counting `len(block) + 2` per appended block), flushing `current` as one
chunk whenever the next block would overflow `maxChars`. -/
def chunkGo (maxChars : Nat) : List (List Char) → List (List Char) → Nat → List (List Char)
  | [], current, _ => if current = [] then [] else [joinBlocks current]
  | block :: rest, current, currentLen =>
    if currentLen + (block.length + 2) ≤ maxChars then
      chunkGo maxChars rest (current ++ [block]) (currentLen + (block.length + 2))
    else if current = [] then
      chunkGo maxChars rest [block] block.length
    else
      joinBlocks current :: chunkGo maxChars rest [block] block.length

/-- `translator._chunk_text` at the character-list level: texts no longer
than the budget are returned whole; otherwise the text is split on the
double-newline block delimiter and greedily packed. -/
def chunkText (l : List Char) (maxChars : Nat) : List (List Char) :=
  if l.length ≤ maxChars then [l] else chunkGo maxChars (splitBlocks l) [] 0

/-- `translator._chunk_text` on `String` (the Python signature). -/
def _chunk_text (text : String) (maxChars : Nat) : List String :=
  (chunkText text.data maxChars).map (fun l => ⟨l⟩)

/-! ## Sheet-boundary pattern (`re.match(r"^=+\s*Sheet:\s*(.+?)\s*=+$", s, re.I)`)

The pattern is compiled by hand.  The leading `=+` and the `\s*` before
`Sheet:` are deterministic (no successful backtracking exists: `\s`
cannot match `=`, and `S`/`s` matches neither `=` nor whitespace).  The
trailing `\s*(.+?)\s*=+$` needs real backtracking: the engine prefers a
maximal leading whitespace run, and within each choice the lazy group
takes the shortest nonempty prefix whose remainder is whitespace
followed by a nonempty run of `=` reaching the end. -/

/-- Does `t` match `\s*=+$` (whitespace then at least one `=`, to the end)? -/
def isWsThenEqs (t : List Char) : Bool :=
  !(t.dropWhile isPySpace).isEmpty && (t.dropWhile isPySpace).all (fun c => c == '=')

/-- `(.+?)\s*=+$`: return the lazily-minimal nonempty capture. -/
def tailMatch : List Char → Option (List Char)
  | [] => none
  | c :: cs =>
    if isWsThenEqs cs then some [c]
    else (tailMatch cs).map (fun g => c :: g)

/-- `\s*(.+?)\s*=+$`: greedy leading whitespace, backtracking into the
lazy group on failure. -/
def wsThenTail : List Char → Option (List Char)
  | [] => none
  | c :: cs =>
    if isPySpace c then
      match wsThenTail cs with
      | some g => some g
      | none => tailMatch (c :: cs)
    else tailMatch (c :: cs)

/-- The whole anchored pattern `^=+\s*Sheet:\s*(.+?)\s*=+$` with
`re.IGNORECASE`, applied to a full line: returns the captured sheet name. -/
def sheetMatch (s : List Char) : Option (List Char) :=
  if (s.takeWhile (fun c => c == '=')).isEmpty then none
  else
    if (((s.dropWhile (fun c => c == '=')).dropWhile isPySpace).take 6).map Char.toLower
        = "sheet:".data then
      wsThenTail (((s.dropWhile (fun c => c == '=')).dropWhile isPySpace).drop 6)
    else none

example : sheetMatch "===== Sheet: Q1 =====".data = some "Q1".data := by decide
example : sheetMatch "== sheet: Name ==".data = some "Name".data := by decide
example : sheetMatch "a | b".data = none := by decide
example : sheetMatch "=Sheet:=".data = none := by decide

/-! ## Workbook renderer (`file_utils.save_xlsx_from_flat`)

A workbook is modelled as its observable content: the ordered list of
sheets, each a title with its appended rows.  `openpyxl`'s fresh
`Workbook()` starts with a single active sheet, which the source
immediately titles `"Sheet1"`; rows are always appended to the most
recently created sheet, and the first sheet-boundary line renames the
first sheet in place. -/

/-- A sheet: title and appended rows of cells. -/
abbrev XSheet := List Char × List (List (List Char))

/-- Rename the first sheet in place (`new_sheet` before `first_sheet_used`). -/
def renameHead (name : List Char) : List XSheet → List XSheet
  | [] => []
  | (_, rows) :: ss => (name, rows) :: ss

/-- Append a row to the active (last-created) sheet. -/
def appendRowLast (row : List (List Char)) : List XSheet → List XSheet
  | [] => []
  | [(n, rows)] => [(n, rows ++ [row])]
  | s :: ss => s :: appendRowLast row ss

/-- The line loop of `save_xlsx_from_flat`: skip blank lines; a
sheet-boundary line renames the first sheet (first time) or creates a new
sheet; any other line splits on `" | "` into stripped cells appended as a
row to the active sheet. -/
def xlsxGo : List (List Char) → Bool → List XSheet → List XSheet
  | [], _, sheets => sheets
  | line :: rest, used, sheets =>
    if (pyStrip line).isEmpty then xlsxGo rest used sheets
    else
      match sheetMatch (pyStrip line) with
      | some name =>
        if used then
          xlsxGo rest true (sheets ++ [(if name.isEmpty then "Sheet".data else name, [])])
        else
          xlsxGo rest true (renameHead (if name.isEmpty then "Sheet1".data else name) sheets)
      | none => xlsxGo rest used (appendRowLast ((splitCells line).map pyStrip) sheets)

/-- `file_utils.save_xlsx_from_flat`, returning the workbook content that
would be saved (title and rows per sheet, in order). -/
def save_xlsx_from_flat (text : String) : List (String × List (List String)) :=
  (xlsxGo (splitLines text.data) false [("Sheet1".data, [])]).map
    (fun sh => (⟨sh.1⟩, sh.2.map (fun row => row.map (fun c => (⟨c⟩ : String)))))

example : save_xlsx_from_flat "===== Sheet: Q1 =====\n\na | b" = [("Q1", [["a", "b"]])] := by
  decide
example : save_xlsx_from_flat "x | y" = [("Sheet1", [["x", "y"]])] := by decide

/-! ## Extension dispatch and orchestrator (`file_utils.detect_type`,
`main.api_translate`) -/

/-- `file_utils.detect_type`.  The `.xlsx` branch returns `"txt"` in the
source (its comment says "legacy .xls not supported; please convert to
.xlsx", indicating the branch was meant to return `"xlsx"`); the
embedding reproduces the source as written. -/
def detect_type (ext : String) : String :=
  if pyLower ext = ".pdf" then "pdf"
  else if pyLower ext = ".docx" then "docx"
  else if pyLower ext = ".txt" then "txt"
  else if pyLower ext = ".csv" then "csv"
  else if pyLower ext = ".xlsx" then "txt"
  else if pyLower ext = ".png" ∨ pyLower ext = ".jpg" ∨ pyLower ext = ".jpeg" then "image"
  else "unknown"

/-- `translator.translate_text` with the network call abstracted as an
`oracle : mode → chunk → response`: chunk the input with the default
6000-character budget, strip each response, and rejoin with the block
delimiter.  The `mode` argument only selects the system prompt and
temperature of the request, so it is passed to the oracle. -/
def translate_text (oracle : String → String → String) (mode : String)
    (french_text : String) : String :=
  joinChunks ((_chunk_text french_text 6000).map (fun ch => pyStripStr (oracle mode ch)))

/-- Job-level failures of `main.api_translate` (HTTP status and detail). -/
inductive ApiError
  | badRequest : String → ApiError
  | unprocessable : String → ApiError
deriving DecidableEq

/-- The output-format sets written per input kind (`main.api_translate`,
branch chain after translation). -/
def outputFormats (kind : String) : List String :=
  if kind = "xlsx" then ["xlsx", "csv"]
  else if kind = "csv" then ["csv", "xlsx"]
  else if kind = "pdf" then ["pdf", "docx", "txt"]
  else if kind = "docx" then ["docx", "pdf", "txt"]
  else if kind = "txt" then ["txt"]
  else ["txt", "docx", "pdf"]

/-- The file branch of `main.api_translate`: detect the kind from the
extension (unhandled kinds raise HTTP 400 before extraction), reject
empty or whitespace-only extraction results with HTTP 422 before any
translation, then translate — the source calls `translate_text(source_text)`
with no mode argument, so the translator's default mode `"document"` is
used for every kind — and report the translated text with the formats
written for the job.  An `Except.error` models the raised `HTTPException`:
the handler aborts with no artifacts written. -/
def api_translate (ext : String) (extracted : String)
    (oracle : String → String → String) : Except ApiError (String × List String) :=
  if detect_type ext = "unknown" then
    Except.error (ApiError.badRequest ext)
  else if (pyStrip extracted.data).isEmpty then
    Except.error (ApiError.unprocessable "Could not extract text from uploaded file.")
  else
    Except.ok (translate_text oracle "document" extracted, outputFormats (detect_type ext))

example : detect_type ".pdf" = "pdf" := by decide
example : detect_type ".xlsx" = "txt" := by decide
example : api_translate ".csv" "bonjour" (fun mode _ => mode)
    = Except.ok ("document", ["csv", "xlsx"]) := rfl

/-! ## PDF renderer's table classifier (`save_pdf`'s `is_table_block`,
`table_from_lines`) -/

/-- `is_table_block`: at least `max(2, int(0.6 * number of non-empty
lines))` of the block's lines contain a pipe.  Python's `int(0.6 * n)`
truncates toward zero; for every block size a float can faithfully
represent, it equals `3 * n / 5` in natural-number division, which is how
the embedding writes it. -/
def is_table_block (lines : List String) : Bool :=
  decide (max 2 (3 * (lines.filter (fun ln => !(pyStrip ln.data).isEmpty)).length / 5)
    ≤ (lines.filter (fun ln => ln.data.contains '|')).length)

/-- The row loop of `table_from_lines`: lines without a pipe are skipped;
each other line splits on `'|'` into stripped cells. -/
def tableRowsGo : List String → List (List String)
  | [] => []
  | ln :: rest =>
    if ln.data.contains '|' then
      ((splitPipe ln.data).map (fun c => (⟨pyStrip c⟩ : String))) :: tableRowsGo rest
    else tableRowsGo rest

/-- `table_from_lines`: `none` models the source's `None` when no row has
a pipe. -/
def table_from_lines (lines : List String) : Option (List (List String)) :=
  if tableRowsGo lines = [] then none else some (tableRowsGo lines)

/-- The claim's reading of the classification threshold, following the
spec's words: the count of pipe-bearing lines is at least the greater of
`2` and 60% of the non-empty lines (exact rational arithmetic, no
truncation). -/
def sixtyPercentSpec (lines : List String) : Prop :=
  max (2 : ℚ) ((3 : ℚ) / 5 * (lines.filter (fun ln => !(pyStrip ln.data).isEmpty)).length)
    ≤ ((lines.filter (fun ln => ln.data.contains '|')).length : ℚ)

example : is_table_block ["a | b", "c | d"] = true := by decide
example : is_table_block ["a|b", "c|d", "x", "y"] = true := by decide
example : table_from_lines ["a | b", "zzz"] = some [["a", "b"]] := by decide

/-! ## Split/join infrastructure -/

theorem consHead_ne_nil (c : Char) (ls : List (List Char)) : consHead c ls ≠ [] := by
  cases ls <;> simp [consHead]

theorem splitBlocks_ne_nil (l : List Char) : splitBlocks l ≠ [] := by
  induction l using splitBlocks.induct with
  | case1 => simp [splitBlocks]
  | case2 rest ih => simp [splitBlocks]
  | case3 c cs h ih => exact splitBlocks.eq_3 c cs h ▸ consHead_ne_nil c (splitBlocks cs)

theorem joinBlocks_cons_of_ne (a : List Char) (ls : List (List Char)) (h : ls ≠ []) :
    joinBlocks (a :: ls) = a ++ '\n' :: '\n' :: joinBlocks ls := by
  cases ls with
  | nil => exact absurd rfl h
  | cons b bs => rfl

theorem joinBlocks_consHead (c : Char) (ls : List (List Char)) (h : ls ≠ []) :
    joinBlocks (consHead c ls) = c :: joinBlocks ls := by
  cases ls with
  | nil => exact absurd rfl h
  | cons b bs =>
    cases bs with
    | nil => rfl
    | cons b2 bs2 => rfl

theorem joinBlocks_splitBlocks (l : List Char) : joinBlocks (splitBlocks l) = l := by
  induction l using splitBlocks.induct with
  | case1 => rfl
  | case2 rest ih =>
    rw [show splitBlocks ('\n' :: '\n' :: rest) = [] :: splitBlocks rest from rfl,
      joinBlocks_cons_of_ne _ _ (splitBlocks_ne_nil rest), ih]
    rfl
  | case3 c cs h ih =>
    rw [splitBlocks.eq_3 c cs h, joinBlocks_consHead c _ (splitBlocks_ne_nil cs), ih]

theorem joinBlocks_append (as bs : List (List Char)) (ha : as ≠ []) (hb : bs ≠ []) :
    joinBlocks (as ++ bs) = joinBlocks as ++ '\n' :: '\n' :: joinBlocks bs := by
  induction as with
  | nil => exact absurd rfl ha
  | cons a as ih =>
    cases as with
    | nil =>
      simp only [List.singleton_append]
      rw [joinBlocks_cons_of_ne a bs hb]
      rfl
    | cons a2 as2 =>
      have h2 : a2 :: as2 ≠ [] := by simp
      rw [List.cons_append, joinBlocks_cons_of_ne a _ (by simp),
        joinBlocks_cons_of_ne a _ h2, ih h2, List.append_assoc]
      rfl

theorem chunkGo_ne_nil (maxChars : Nat) (blocks current : List (List Char))
    (currentLen : Nat) (h : current ≠ []) :
    chunkGo maxChars blocks current currentLen ≠ [] := by
  induction blocks generalizing current currentLen with
  | nil =>
    simp only [chunkGo]
    rw [if_neg h]
    simp
  | cons block rest ih =>
    simp only [chunkGo]
    by_cases h1 : currentLen + (block.length + 2) ≤ maxChars
    · rw [if_pos h1]
      exact ih (current ++ [block]) _ (by simp)
    · rw [if_neg h1, if_neg h]
      simp

theorem chunkGo_join (maxChars : Nat) (blocks current : List (List Char))
    (currentLen : Nat) (h : current = [] → blocks ≠ []) :
    joinBlocks (chunkGo maxChars blocks current currentLen)
      = joinBlocks (current ++ blocks) := by
  induction blocks generalizing current currentLen with
  | nil =>
    have hc : current ≠ [] := fun hh => h hh rfl
    simp only [chunkGo]
    rw [if_neg hc, List.append_nil]
    rfl
  | cons block rest ih =>
    simp only [chunkGo]
    by_cases h1 : currentLen + (block.length + 2) ≤ maxChars
    · rw [if_pos h1, ih (current ++ [block]) _ (by simp), List.append_assoc,
        List.singleton_append]
    · rw [if_neg h1]
      by_cases h2 : current = []
      · rw [if_pos h2, ih [block] _ (by simp), h2,
          List.singleton_append, List.nil_append]
      · rw [if_neg h2,
          joinBlocks_cons_of_ne _ _ (chunkGo_ne_nil maxChars rest [block] _ (by simp)),
          ih [block] _ (by simp), List.singleton_append,
          joinBlocks_append current (block :: rest) h2 (by simp)]

theorem chunkText_join (l : List Char) (maxChars : Nat) :
    joinBlocks (chunkText l maxChars) = l := by
  unfold chunkText
  by_cases h : l.length ≤ maxChars
  · rw [if_pos h]
    rfl
  · rw [if_neg h, chunkGo_join maxChars (splitBlocks l) [] 0
      (fun _ => splitBlocks_ne_nil l), List.nil_append, joinBlocks_splitBlocks]

theorem joinChunks_map_mk (ls : List (List Char)) :
    joinChunks (ls.map (fun l => (⟨l⟩ : String))) = ⟨joinBlocks ls⟩ := by
  induction ls with
  | nil => rfl
  | cons a as ih =>
    cases as with
    | nil => rfl
    | cons b bs =>
      simp only [List.map_cons] at ih ⊢
      rw [joinChunks, joinBlocks, ih]
      apply String.ext
      simp

/-! ## Claim C1 and C2 theorems -/

/-- Claim C1: joining the chunks returned by `_chunk_text text N` with the
double-newline delimiter reproduces `text` exactly, for every positive
budget `N` such that no single blank-line-delimited block of `text`
exceeds `N`. -/
theorem chunk_roundTrip (text : String) (N : Nat) (_hN : 0 < N)
    (_hb : ∀ b ∈ splitBlocks text.data, b.length ≤ N) :
    joinChunks (_chunk_text text N) = text := by
  unfold _chunk_text
  rw [joinChunks_map_mk, chunkText_join]

/-- Witness for C1 at `text = "aa\n\nbb"`, `N = 3`. -/
theorem chunk_roundTrip_witness :
    0 < 3 ∧ (∀ b ∈ splitBlocks ("aa\n\nbb" : String).data, b.length ≤ 3) ∧
      joinChunks (_chunk_text "aa\n\nbb" 3) = "aa\n\nbb" :=
  ⟨by decide, by decide, chunk_roundTrip "aa\n\nbb" 3 (by decide) (by decide)⟩

theorem chunkGo_bound (N : Nat) (S : List (List Char)) :
    ∀ (blocks current : List (List Char)) (clen : Nat),
      (∀ b ∈ blocks, b ∈ S) →
      (joinBlocks current).length ≤ clen →
      (clen ≤ N ∨ ∃ b, current = [b] ∧ b ∈ S ∧ N < b.length) →
      ∀ c ∈ chunkGo N blocks current clen, c.length ≤ N ∨ (N < c.length ∧ c ∈ S) := by
  intro blocks
  induction blocks with
  | nil =>
    intro current clen _ hjoin hdisj c hc
    simp only [chunkGo] at hc
    by_cases h2 : current = []
    · rw [if_pos h2] at hc
      exact absurd hc (List.not_mem_nil c)
    · rw [if_neg h2] at hc
      rw [List.mem_singleton] at hc
      subst hc
      rcases hdisj with hle | ⟨b, hb, hbS, hbN⟩
      · exact Or.inl (le_trans hjoin hle)
      · subst hb
        exact Or.inr ⟨hbN, hbS⟩
  | cons block rest ih =>
    intro current clen hS hjoin hdisj c hc
    simp only [chunkGo] at hc
    by_cases h1 : clen + (block.length + 2) ≤ N
    · rw [if_pos h1] at hc
      refine ih (current ++ [block]) _ (fun b hb => hS b (List.mem_cons_of_mem _ hb))
        ?_ (Or.inl h1) c hc
      by_cases h2 : current = []
      · subst h2
        simp only [List.nil_append, joinBlocks]
        omega
      · rw [joinBlocks_append current [block] h2 (by simp)]
        simp only [List.length_append, List.length_cons, joinBlocks]
        omega
    · rw [if_neg h1] at hc
      have hseed : block.length ≤ N ∨ ∃ b, [block] = [b] ∧ b ∈ S ∧ N < b.length := by
        rcases le_or_lt block.length N with hbl | hbl
        · exact Or.inl hbl
        · exact Or.inr ⟨block, rfl, hS block (List.mem_cons_self block rest), hbl⟩
      by_cases h2 : current = []
      · rw [if_pos h2] at hc
        exact ih [block] _ (fun b hb => hS b (List.mem_cons_of_mem _ hb))
          (by simp [joinBlocks]) hseed c hc
      · rw [if_neg h2] at hc
        rcases List.mem_cons.mp hc with hc1 | hc2
        · subst hc1
          rcases hdisj with hle | ⟨b, hb, hbS, hbN⟩
          · exact Or.inl (le_trans hjoin hle)
          · subst hb
            exact Or.inr ⟨hbN, hbS⟩
        · exact ih [block] _ (fun b hb => hS b (List.mem_cons_of_mem _ hb))
            (by simp [joinBlocks]) hseed c hc2

/-- Claim C2: every chunk returned by `_chunk_text text N` has length at most
`N`, except a chunk that consists of a single block (an element of the
double-newline split of the text) whose own length exceeds `N`. -/
theorem chunk_bound (text : String) (N : Nat) :
    ∀ c ∈ _chunk_text text N,
      c.length ≤ N ∨ (N < c.length ∧ c.data ∈ splitBlocks text.data) := by
  intro c hc
  simp only [_chunk_text, List.mem_map] at hc
  obtain ⟨l, hl, rfl⟩ := hc
  show l.length ≤ N ∨ (N < l.length ∧ l ∈ splitBlocks text.data)
  unfold chunkText at hl
  by_cases h : text.data.length ≤ N
  · rw [if_pos h, List.mem_singleton] at hl
    subst hl
    exact Or.inl h
  · rw [if_neg h] at hl
    exact chunkGo_bound N (splitBlocks text.data) (splitBlocks text.data) [] 0
      (fun b hb => hb) (by simp [joinBlocks]) (Or.inl (Nat.zero_le N)) l hl

/-- Witness for C2: at `text = "aaaaa\n\nbb"`, `N = 3` the first chunk is
the oversized single block `"aaaaa"`. -/
theorem chunk_bound_witness :
    ("aaaaa" : String) ∈ _chunk_text "aaaaa\n\nbb" 3 ∧
      (("aaaaa" : String).length ≤ 3 ∨
        (3 < ("aaaaa" : String).length ∧
          ("aaaaa" : String).data ∈ splitBlocks ("aaaaa\n\nbb" : String).data)) :=
  ⟨by decide, chunk_bound "aaaaa\n\nbb" 3 "aaaaa" (by decide)⟩

/-! ## Claims about dispatch and the orchestrator (C3, C4, C8, C9) -/

/-- Claim C3 (code bug): `detect_type` maps the `.xlsx` extension (any letter
case) to the kind `"txt"`, not `"xlsx"`, so an `.xlsx` upload is decoded
as plain text and the job writes only the txt artifact instead of the
xlsx and csv outputs. -/
theorem xlsx_detects_as_txt :
    detect_type ".xlsx" = "txt" ∧ detect_type ".XLSX" = "txt" ∧
      api_translate ".xlsx" "bonjour" (fun _ t => t) = Except.ok ("bonjour", ["txt"]) :=
  ⟨by decide, by decide, rfl⟩

/-- Claim C4 (code bug): the orchestrator calls the translation with the
translator's default mode for every kind — for a csv job the oracle
observes mode `"document"`, not the `"table"` the spec derives. -/
theorem csv_mode_is_document :
    api_translate ".csv" "bonjour" (fun mode _ => mode)
      = Except.ok ("document", ["csv", "xlsx"]) := rfl

/-- Claim C8: whenever the extracted text is whitespace-only (strips to
nothing) and the kind is a handled one, the job fails with the 422 error
before any translation (the result does not depend on the oracle) and no
artifacts are produced. -/
theorem empty_extraction_fails (ext extracted : String)
    (oracle : String → String → String) (hkind : detect_type ext ≠ "unknown")
    (hempty : pyStrip extracted.data = []) :
    api_translate ext extracted oracle
      = Except.error (ApiError.unprocessable "Could not extract text from uploaded file.") := by
  unfold api_translate
  rw [if_neg hkind, if_pos (by rw [hempty]; rfl)]

/-- Witness for C8 at a whitespace-only txt extraction. -/
theorem empty_extraction_fails_witness :
    detect_type ".txt" ≠ "unknown" ∧ pyStrip ("  " : String).data = [] ∧
      api_translate ".txt" "  " (fun _ _ => "x")
        = Except.error (ApiError.unprocessable "Could not extract text from uploaded file.") :=
  ⟨by decide, by decide,
    empty_extraction_fails ".txt" "  " (fun _ _ => "x") (by decide) (by decide)⟩

/-- Claim C9 counterexample: an upload with the unrecognized extension `.xyz`
yields kind `"unknown"`, but the orchestrator rejects it with the 400
error instead of processing it as plain text with a txt output. -/
theorem unknown_not_processed_as_text :
    detect_type ".xyz" = "unknown" ∧
      api_translate ".xyz" "bonjour" (fun _ t => t)
        = Except.error (ApiError.badRequest ".xyz") ∧
      api_translate ".xyz" "bonjour" (fun _ t => t) ≠ Except.ok ("bonjour", ["txt"]) :=
  ⟨by decide, rfl, fun h => Except.noConfusion h⟩

/-- Claim C9 amended: an uploaded file whose extension is unrecognized yields
kind `"unknown"`, and the orchestrator rejects the job with an HTTP 400
error (unsupported file type) before extraction, translation or
rendering, producing no outputs. -/
theorem unknown_rejected (ext extracted : String) (oracle : String → String → String)
    (h : detect_type ext = "unknown") :
    api_translate ext extracted oracle = Except.error (ApiError.badRequest ext) := by
  unfold api_translate
  rw [if_pos h]

/-- Witness for the amended C9 at extension `.xyz`. -/
theorem unknown_rejected_witness :
    detect_type ".xyz" = "unknown" ∧
      api_translate ".xyz" "hola" (fun _ _ => "y")
        = Except.error (ApiError.badRequest ".xyz") :=
  ⟨by decide, unknown_rejected ".xyz" "hola" (fun _ _ => "y") (by decide)⟩

/-! ## Claim C5: sheet boundary fidelity of the workbook renderer -/

theorem appendRowLast_map_fst (row : List (List Char)) (sheets : List XSheet) :
    (appendRowLast row sheets).map Prod.fst = sheets.map Prod.fst := by
  induction sheets with
  | nil => rfl
  | cons s ss ih =>
    obtain ⟨n, rows⟩ := s
    cases ss with
    | nil => rfl
    | cons s2 ss2 =>
      simp only [appendRowLast, List.map_cons]
      rw [ih]
      simp

theorem xlsxGo_map_fst (lines : List (List Char))
    (h : ∀ l ∈ lines, sheetMatch (pyStrip l) = none) :
    ∀ (used : Bool) (sheets : List XSheet),
      (xlsxGo lines used sheets).map Prod.fst = sheets.map Prod.fst := by
  induction lines with
  | nil => intro used sheets; rfl
  | cons line rest ih =>
    intro used sheets
    have hline : sheetMatch (pyStrip line) = none := h line (List.mem_cons_self line rest)
    have hrest : ∀ l ∈ rest, sheetMatch (pyStrip l) = none :=
      fun l hl => h l (List.mem_cons_of_mem line hl)
    simp only [xlsxGo]
    by_cases he : (pyStrip line).isEmpty
    · rw [if_pos he]
      exact ih hrest used sheets
    · rw [if_neg he, hline]
      exact (ih hrest used _).trans (appendRowLast_map_fst _ sheets)

theorem map_fst_wrap (ss : List XSheet) :
    ((ss.map (fun sh => ((⟨sh.1⟩ : String),
        sh.2.map (fun row => row.map (fun c => (⟨c⟩ : String)))))).map Prod.fst)
      = (ss.map Prod.fst).map (fun l => (⟨l⟩ : String)) := by
  simp only [List.map_map]
  rfl

/-- Claim C5: rendering the IR text `"===== Sheet: Q1 =====\n\na | b"` yields a
workbook whose only sheet is named `Q1` with the single row `["a", "b"]`;
and for any IR text without a sheet-boundary line the workbook has exactly
one sheet, named `Sheet1` (the initial sheet renamed in place, never a
newly created one). -/
theorem sheet_boundary_fidelity :
    save_xlsx_from_flat "===== Sheet: Q1 =====\n\na | b" = [("Q1", [["a", "b"]])] ∧
      ∀ t : String, (∀ l ∈ splitLines t.data, sheetMatch (pyStrip l) = none) →
        (save_xlsx_from_flat t).map Prod.fst = ["Sheet1"] := by
  constructor
  · decide
  · intro t h
    unfold save_xlsx_from_flat
    rw [map_fst_wrap, xlsxGo_map_fst (splitLines t.data) h false _]
    rfl

/-- Witness for C5 (for its second, hypothesis-bearing part) at the
boundary-free IR text `"hello"`. -/
theorem sheet_boundary_fidelity_witness :
    (∀ l ∈ splitLines ("hello" : String).data, sheetMatch (pyStrip l) = none) ∧
      (save_xlsx_from_flat "hello").map Prod.fst = ["Sheet1"] :=
  ⟨by decide, sheet_boundary_fidelity.2 "hello" (by decide)⟩

/-! ## Claim C6: star-counting lemmas for `strip_markdown`

One substitution pass either leaves the string unchanged or removes at
least four `*` characters (two delimiters of two stars each per match),
and no match can exist in a string with fewer than four stars.  Hence a
second pass is the identity whenever the input had fewer than eight. -/

theorem stripFuel_count_or (f : Nat) :
    ∀ l : List Char, stripFuel f l = l ∨ (stripFuel f l).count '*' + 4 ≤ l.count '*' := by
  induction f with
  | zero =>
    intro l
    match l with
    | [] => exact Or.inl rfl
    | [c] => exact Or.inl rfl
    | c1 :: c2 :: rest => exact Or.inl rfl
  | succ f ih =>
    intro l
    match l with
    | [] => exact Or.inl rfl
    | [c] => exact Or.inl rfl
    | c1 :: c2 :: rest =>
      simp only [stripFuel]
      by_cases h1 : c1 = '*' ∧ c2 = '*'
      · rw [if_pos h1]
        by_cases h2 : (rest.takeWhile (fun c => c != '*')) ≠ [] ∧
            (rest.dropWhile (fun c => c != '*')).take 2 = ['*', '*']
        · rw [if_pos h2]
          right
          have hbody : (rest.takeWhile (fun c => c != '*')).count '*' = 0 := by
            refine List.count_eq_zero_of_not_mem (fun hmem => ?_)
            have := List.mem_takeWhile_imp hmem
            simp at this
          have hsplit : rest.count '*'
              = 2 + ((rest.dropWhile (fun c => c != '*')).drop 2).count '*' := by
            conv_lhs => rw [← List.takeWhile_append_dropWhile (fun c => c != '*') rest]
            rw [List.count_append, hbody]
            conv_lhs => rw [← List.take_append_drop 2 (rest.dropWhile (fun c => c != '*')),
              List.count_append, h2.2]
            have h22 : List.count '*' ['*', '*'] = 2 := by decide
            omega
          have hrec : ((stripFuel f ((rest.dropWhile (fun c => c != '*')).drop 2)).count '*')
              ≤ ((rest.dropWhile (fun c => c != '*')).drop 2).count '*' :=
            (ih ((rest.dropWhile (fun c => c != '*')).drop 2)).elim
              (fun h => le_of_eq (congrArg (List.count '*') h))
              (fun h => by omega)
          obtain ⟨hc1, hc2⟩ := h1
          subst hc1; subst hc2
          rw [List.count_append, hbody, List.count_cons_self, List.count_cons_self]
          omega
        · rw [if_neg h2]
          rcases ih (c2 :: rest) with heq | hle
          · exact Or.inl (by rw [heq])
          · right
            rw [List.count_cons '*' c1, List.count_cons '*' c1 (c2 :: rest)]
            omega
      · rw [if_neg h1]
        rcases ih (c2 :: rest) with heq | hle
        · exact Or.inl (by rw [heq])
        · right
          rw [List.count_cons '*' c1, List.count_cons '*' c1 (c2 :: rest)]
          omega

theorem stripFuel_id_of_count_lt (f : Nat) :
    ∀ l : List Char, l.count '*' < 4 → stripFuel f l = l := by
  induction f with
  | zero =>
    intro l _
    match l with
    | [] => rfl
    | [c] => rfl
    | c1 :: c2 :: rest => rfl
  | succ f ih =>
    intro l hcount
    match l with
    | [] => rfl
    | [c] => rfl
    | c1 :: c2 :: rest =>
      simp only [stripFuel]
      by_cases h1 : c1 = '*' ∧ c2 = '*'
      · rw [if_pos h1]
        by_cases h2 : (rest.takeWhile (fun c => c != '*')) ≠ [] ∧
            (rest.dropWhile (fun c => c != '*')).take 2 = ['*', '*']
        · exfalso
          have hbody : (rest.takeWhile (fun c => c != '*')).count '*' = 0 := by
            refine List.count_eq_zero_of_not_mem (fun hmem => ?_)
            have := List.mem_takeWhile_imp hmem
            simp at this
          have hsplit : rest.count '*'
              = 2 + ((rest.dropWhile (fun c => c != '*')).drop 2).count '*' := by
            conv_lhs => rw [← List.takeWhile_append_dropWhile (fun c => c != '*') rest]
            rw [List.count_append, hbody]
            conv_lhs => rw [← List.take_append_drop 2 (rest.dropWhile (fun c => c != '*')),
              List.count_append, h2.2]
            have h22 : List.count '*' ['*', '*'] = 2 := by decide
            omega
          obtain ⟨hc1, hc2⟩ := h1
          subst hc1; subst hc2
          rw [List.count_cons_self, List.count_cons_self] at hcount
          omega
        · rw [if_neg h2]
          have hc : (c2 :: rest).count '*' < 4 := by
            rw [List.count_cons '*' c1] at hcount
            omega
          rw [ih (c2 :: rest) hc]
      · rw [if_neg h1]
        have hc : (c2 :: rest).count '*' < 4 := by
          rw [List.count_cons '*' c1] at hcount
          omega
        rw [ih (c2 :: rest) hc]

/-- Claim C6 counterexample: `strip_markdown` is not idempotent — on
`"****a****"` one pass yields `"**a**"` and a second pass yields `"a"`. -/
theorem stripMarkdown_not_idempotent :
    strip_markdown (strip_markdown "****a****") ≠ strip_markdown "****a****" := by decide

/-- Claim C6 amended: `strip_markdown (strip_markdown s) = strip_markdown s`
for every string `s` containing fewer than eight asterisk characters
(a removed match frees four asterisks, so a second match in the output
needs at least eight in the input). -/
theorem stripMarkdown_idempotent_of_few_stars (s : String) (h : s.data.count '*' < 8) :
    strip_markdown (strip_markdown s) = strip_markdown s := by
  show (⟨stripFuel (stripFuel s.data.length s.data).length
    (stripFuel s.data.length s.data)⟩ : String) = ⟨stripFuel s.data.length s.data⟩
  apply congrArg
  rcases stripFuel_count_or s.data.length s.data with heq | hle
  · rw [heq]
    exact heq
  · exact stripFuel_id_of_count_lt _ _ (by omega)

/-- Witness for the amended C6 at `s = "**x**"` (four asterisks). -/
theorem stripMarkdown_idempotent_witness :
    ("**x**" : String).data.count '*' < 8 ∧
      strip_markdown (strip_markdown "**x**") = strip_markdown "**x**" :=
  ⟨by decide, stripMarkdown_idempotent_of_few_stars "**x**" (by decide)⟩

/-! ## Claim C7: the PDF renderer's table classification threshold -/

/-- Claim C7 counterexample: a block of four non-empty lines of which exactly
two contain a pipe is classified as a `Table` by the source
(`2 ≥ max(2, int(0.6 * 4)) = 2`), although two lines are less than 60% of
four non-empty lines, so the claim's threshold rejects it. -/
theorem table_threshold_spec_counterexample :
    is_table_block ["a|b", "c|d", "x", "y"] = true ∧
      ¬ sixtyPercentSpec ["a|b", "c|d", "x", "y"] := by
  constructor
  · decide
  · intro h
    have e1 : ((["a|b", "c|d", "x", "y"] : List String).filter
        (fun ln => !(pyStrip ln.data).isEmpty)).length = 4 := by decide
    have e2 : ((["a|b", "c|d", "x", "y"] : List String).filter
        (fun ln => ln.data.contains '|')).length = 2 := by decide
    rw [sixtyPercentSpec, e1, e2] at h
    rw [max_le_iff] at h
    norm_num at h

/-- Claim C7 amended: a block is classified as a `Table` exactly when the
number of its pipe-bearing lines is at least the greater of 2 and the
floor of 60% of its non-empty lines (Python's `int()` truncation of
`0.6 * n`); each qualifying line splits on the pipe character into
trimmed cells and lines without a pipe are dropped from the table. -/
theorem table_classification_floor (lines : List String) :
    (is_table_block lines = true ↔
      max 2 (Nat.floor ((3 : ℚ) / 5 *
          ((lines.filter (fun ln => !(pyStrip ln.data).isEmpty)).length : ℚ)))
        ≤ (lines.filter (fun ln => ln.data.contains '|')).length)
    ∧ tableRowsGo lines
        = (lines.filter (fun ln => ln.data.contains '|')).map
            (fun ln => (splitPipe ln.data).map (fun c => (⟨pyStrip c⟩ : String))) := by
  constructor
  · have hfloor : Nat.floor ((3 : ℚ) / 5 *
        ((lines.filter (fun ln => !(pyStrip ln.data).isEmpty)).length : ℚ))
        = 3 * (lines.filter (fun ln => !(pyStrip ln.data).isEmpty)).length / 5 := by
      have hcast : (3 : ℚ) / 5 *
          ((lines.filter (fun ln => !(pyStrip ln.data).isEmpty)).length : ℚ)
          = (((3 * (lines.filter (fun ln => !(pyStrip ln.data).isEmpty)).length : ℕ) : ℚ)
            / ((5 : ℕ) : ℚ)) := by
        push_cast
        ring
      rw [hcast, Nat.floor_div_eq_div]
    rw [hfloor]
    simp only [is_table_block, decide_eq_true_eq]
  · induction lines with
    | nil => rfl
    | cons ln rest ih =>
      by_cases h : ln.data.contains '|'
      · simp only [tableRowsGo, List.filter_cons, h, if_pos, List.map_cons, if_true]
        rw [ih]
      · simp only [tableRowsGo, List.filter_cons, h, if_neg, List.map_cons, if_false,
          Bool.false_eq_true]
        exact ih

/-! ## Claim C10: `_split_bold_segments` exactly covers `strip_markdown` -/

theorem concatTexts_map_mk (ps : List (List Char × Bool)) :
    concatTexts (ps.map (fun p => ((⟨p.1⟩ : String), p.2)))
      = ⟨(ps.map Prod.fst).flatten⟩ := by
  induction ps with
  | nil => rfl
  | cons p rest ih =>
    simp only [List.map_cons, concatTexts, List.flatten_cons, ih]
    apply String.ext
    simp

theorem splitBold_flatten (f : Nat) :
    ∀ (l acc : List Char),
      ((splitBoldFuel f l acc).map Prod.fst).flatten = acc.reverse ++ stripFuel f l := by
  induction f with
  | zero =>
    intro l acc
    match l with
    | [] =>
      cases acc with
      | nil => rfl
      | cons a as => simp [splitBoldFuel, stripFuel]
    | [c] => simp [splitBoldFuel, stripFuel]
    | c1 :: c2 :: rest => simp [splitBoldFuel, stripFuel]
  | succ f ih =>
    intro l acc
    match l with
    | [] =>
      cases acc with
      | nil => rfl
      | cons a as => simp [splitBoldFuel, stripFuel]
    | [c] => simp [splitBoldFuel, stripFuel]
    | c1 :: c2 :: rest =>
      simp only [splitBoldFuel, stripFuel]
      by_cases h1 : c1 = '*' ∧ c2 = '*'
      · rw [if_pos h1, if_pos h1]
        by_cases h2 : (rest.takeWhile (fun c => c != '*')) ≠ [] ∧
            (rest.dropWhile (fun c => c != '*')).take 2 = ['*', '*']
        · rw [if_pos h2, if_pos h2]
          rw [List.map_append, List.flatten_append, List.map_cons, List.flatten_cons, ih]
          cases acc with
          | nil => simp
          | cons a as => simp
        · rw [if_neg h2, if_neg h2, ih]
          simp
      · rw [if_neg h1, if_neg h1, ih]
        simp

theorem splitBold_nonempty (f : Nat) :
    ∀ (l acc : List Char), ∀ p ∈ splitBoldFuel f l acc, p.1 ≠ [] := by
  induction f with
  | zero =>
    intro l acc p hp
    match l with
    | [] =>
      cases acc with
      | nil => simp [splitBoldFuel] at hp
      | cons a as =>
        simp [splitBoldFuel] at hp
        simp [hp]
    | [c] =>
      simp [splitBoldFuel] at hp
      simp [hp]
    | c1 :: c2 :: rest =>
      simp [splitBoldFuel] at hp
      simp [hp]
  | succ f ih =>
    intro l acc p hp
    match l with
    | [] =>
      cases acc with
      | nil => simp [splitBoldFuel] at hp
      | cons a as =>
        simp [splitBoldFuel] at hp
        simp [hp]
    | [c] =>
      simp [splitBoldFuel] at hp
      simp [hp]
    | c1 :: c2 :: rest =>
      simp only [splitBoldFuel] at hp
      by_cases h1 : c1 = '*' ∧ c2 = '*'
      · rw [if_pos h1] at hp
        by_cases h2 : (rest.takeWhile (fun c => c != '*')) ≠ [] ∧
            (rest.dropWhile (fun c => c != '*')).take 2 = ['*', '*']
        · rw [if_pos h2] at hp
          rcases List.mem_append.mp hp with hp1 | hp2
          · cases acc with
            | nil => simp at hp1
            | cons a as =>
              simp at hp1
              simp [hp1]
          · rcases List.mem_cons.mp hp2 with hp3 | hp4
            · subst hp3
              exact h2.1
            · exact ih _ _ p hp4
        · rw [if_neg h2] at hp
          exact ih _ _ p hp
      · rw [if_neg h1] at hp
        exact ih _ _ p hp

/-- Claim C10: concatenating the text components of the segments returned by
`_split_bold_segments s`, in order, yields exactly `strip_markdown s`,
and no returned segment has empty text. -/
theorem split_bold_exact_cover (s : String) :
    concatTexts (_split_bold_segments s) = strip_markdown s ∧
      ∀ p ∈ _split_bold_segments s, p.1 ≠ "" := by
  constructor
  · unfold _split_bold_segments strip_markdown
    rw [concatTexts_map_mk, splitBold_flatten]
    simp
  · intro p hp
    unfold _split_bold_segments at hp
    obtain ⟨q, hq, rfl⟩ := List.mem_map.mp hp
    intro hcon
    exact splitBold_nonempty _ _ _ q hq (congrArg String.data hcon)
